import Mathlib

/-!
Verification of the backtesting core of the Mecha-Trader hedge-fund simulator.

The Python source is embedded shallowly:
  * floating-point arithmetic is modelled exactly over `ℚ` (Python floats are
    rationals; the code under verification performs only field operations,
    comparisons, `int()` truncation and `sqrt`);
  * `numpy.sqrt` is abstracted as an explicit function argument `sqrtFn`,
    since the properties under verification never depend on its value beyond
    `sqrt 0 = 0`;
  * Python dicts keyed by symbol are association lists in insertion order;
  * `datetime` values are modelled as integers ordered chronologically;
  * dataclass `__post_init__` validation is modelled as an `Option`-returning
    smart constructor (`none` = the constructor raises).

Sources embedded: `src/models/shared_models.py`, `src/backtesting/simulator.py`,
`src/backtesting/data_loader.py`, `src/backtesting/metrics.py`,
`src/agents/portfolio_manager.py`, `src/config/settings.py`.
-/

/-- Trading signal types (`SignalType` in `shared_models.py`). -/
inductive SignalType
  | BUY
  | SELL
  | HOLD
deriving DecidableEq, Repr

/-- A trade order (`TradeOrder` in `shared_models.py`).  The `timestamp` and
`reasoning` fields are omitted: no code under verification reads them. -/
structure TradeOrder where
  symbol : String
  action : SignalType
  quantity : ℤ
  price : ℚ
deriving DecidableEq, Repr

/-- Python `dict.get(s, 0)` on a `{symbol: shares}` dict modelled as an
association list in insertion order. -/
def posGet (ps : List (String × ℤ)) (s : String) : ℤ :=
  match ps with
  | [] => 0
  | (k, v) :: rest => if k = s then v else posGet rest s

/-- Python `d[s] = v`: replace the value at the first entry for `s`, or append
a new entry at the end (dict insertion order). -/
def posSet (ps : List (String × ℤ)) (s : String) (v : ℤ) : List (String × ℤ) :=
  match ps with
  | [] => [(s, v)]
  | (k, x) :: rest => if k = s then (k, v) :: rest else (k, x) :: posSet rest s v

/-- Python `del d[s]`: drop the entry for `s`. -/
def posDel (ps : List (String × ℤ)) (s : String) : List (String × ℤ) :=
  match ps with
  | [] => []
  | (k, x) :: rest => if k = s then rest else (k, x) :: posDel rest s

/-- Python `s in d`: whether the dict has an entry for `s`. -/
def posHas (ps : List (String × ℤ)) (s : String) : Bool :=
  match ps with
  | [] => false
  | (k, _) :: rest => if k = s then true else posHas rest s

/-- The mutable state of `TradingSimulator` (`simulator.py`).  The
`initial_capital` and `portfolio_history` fields are omitted: the claims under
verification only concern `cash`, `positions` and `trade_history`. -/
structure TradingSimulator where
  cash : ℚ
  positions : List (String × ℤ)
  trade_history : List TradeOrder
deriving DecidableEq, Repr

/-- `TradingSimulator._execute_buy`: debit `quantity * price` and credit the
position, only when cash covers the cost; otherwise skip. -/
def execute_buy (st : TradingSimulator) (trade : TradeOrder) : TradingSimulator :=
  let cost := (trade.quantity : ℚ) * trade.price
  if cost ≤ st.cash then
    { st with
      cash := st.cash - cost
      positions := posSet st.positions trade.symbol
        (posGet st.positions trade.symbol + trade.quantity) }
  else st

/-- `TradingSimulator._execute_sell`: credit `quantity * price` and debit the
position, only when enough shares are held; remove the symbol entry when the
position reaches zero; otherwise skip. -/
def execute_sell (st : TradingSimulator) (trade : TradeOrder) : TradingSimulator :=
  let current_position := posGet st.positions trade.symbol
  if trade.quantity ≤ current_position then
    let proceeds := (trade.quantity : ℚ) * trade.price
    let ps := posSet st.positions trade.symbol (current_position - trade.quantity)
    { st with
      cash := st.cash + proceeds
      positions := if current_position - trade.quantity = 0 then posDel ps trade.symbol else ps }
  else st

/-- The body of the loop in `TradingSimulator.execute_trades`: dispatch on the
action, then always append the order to the history, even if skipped. -/
def apply_trade (st : TradingSimulator) (trade : TradeOrder) : TradingSimulator :=
  let st1 :=
    match trade.action with
    | SignalType.BUY => execute_buy st trade
    | SignalType.SELL => execute_sell st trade
    | SignalType.HOLD => st
  { st1 with trade_history := st1.trade_history ++ [trade] }

/-- `TradingSimulator.execute_trades`: apply each order in turn. -/
def execute_trades (st : TradingSimulator) (trades : List TradeOrder) : TradingSimulator :=
  trades.foldl apply_trade st

/-- `TradingSimulator.get_trade_count`: the length of the full trade history. -/
def get_trade_count (st : TradingSimulator) : ℕ :=
  st.trade_history.length

/-- The symbols of a trade history in first-occurrence order: the key order of
the Python dict built by the grouping loop in `get_trade_pnls`. -/
def symbolOrder (h : List TradeOrder) : List String :=
  h.foldl (fun acc t => if t.symbol ∈ acc then acc else acc ++ [t.symbol]) []

/-- The P&L entries `get_trade_pnls` emits for one symbol: filter that
symbol's trades, split into buys and sells, and for each sell in order pair it
with `buys[0]` (the code never removes a matched buy from `buys`). -/
def symbolPnls (h : List TradeOrder) (sym : String) : List ℚ :=
  let trades := h.filter (fun t => decide (t.symbol = sym))
  let buys := trades.filter (fun t => decide (t.action = SignalType.BUY))
  let sells := trades.filter (fun t => decide (t.action = SignalType.SELL))
  sells.filterMap (fun sell =>
    buys.head?.map (fun buy => (sell.price - buy.price) * (sell.quantity : ℚ)))

/-- `TradingSimulator.get_trade_pnls`: group the full trade history by symbol
in first-occurrence order and concatenate each symbol's P&L entries. -/
def get_trade_pnls (st : TradingSimulator) : List ℚ :=
  ((symbolOrder st.trade_history).map (symbolPnls st.trade_history)).flatten

/-- `Config.MAX_POSITION_SIZE` (`settings.py`): 30% of portfolio per stock. -/
def MAX_POSITION_SIZE : ℚ := 3 / 10

/-- `Config.CASH_RESERVE` (`settings.py`): keep 10% in cash. -/
def CASH_RESERVE : ℚ := 1 / 10

/-- `Config.RISK_FREE_RATE` (`settings.py`): 2% annual risk-free rate. -/
def RISK_FREE_RATE : ℚ := 1 / 50

/-- `Config.TRADING_DAYS_PER_YEAR` (`settings.py`). -/
def TRADING_DAYS_PER_YEAR : ℚ := 252

/-- A portfolio snapshot (`PortfolioState` in `shared_models.py`).  The `date`
field is omitted: no code under verification reads it. -/
structure PortfolioState where
  cash : ℚ
  positions : List (String × ℤ)
  total_value : ℚ
deriving DecidableEq, Repr

/-- Python `int()` applied to a rational: truncation toward zero. -/
def pyInt (x : ℚ) : ℤ :=
  if 0 ≤ x then ⌊x⌋ else ⌈x⌉

/-- The cash-reserve block of `PortfolioManager._validate_buy_order`
(`portfolio_manager.py`), reached with the quantity left by the first two
blocks, followed by the final `return max(0, quantity)`. -/
def validate_buy_reserve (cash_reserve : ℚ) (quantity : ℤ) (price : ℚ)
    (portfolio_state : PortfolioState) : ℤ :=
  let min_cash_reserve := portfolio_state.total_value * cash_reserve
  let remaining_cash := portfolio_state.cash - (quantity : ℚ) * price * (101 / 100)
  if remaining_cash < min_cash_reserve then
    let available_cash := portfolio_state.cash - min_cash_reserve
    if available_cash ≤ 0 then 0
    else max 0 (min quantity (pyInt (available_cash / (101 / 100) / price)))
  else max 0 quantity

/-- The max-position-size block of `PortfolioManager._validate_buy_order`,
reached with the quantity left by the affordability block; `cost` is
recomputed from that quantity as in the source. -/
def validate_buy_position (max_position_size cash_reserve : ℚ) (symbol : String)
    (quantity : ℤ) (price : ℚ) (portfolio_state : PortfolioState) : ℤ :=
  let cost := (quantity : ℚ) * price
  let max_position_value := portfolio_state.total_value * max_position_size
  let current_position_value := (posGet portfolio_state.positions symbol : ℚ) * price
  if current_position_value + cost > max_position_value then
    let available_position_value := max_position_value - current_position_value
    if available_position_value ≤ 0 then 0
    else
      validate_buy_reserve cash_reserve
        (min quantity (pyInt (available_position_value / price))) price portfolio_state
  else validate_buy_reserve cash_reserve quantity price portfolio_state

/-- `PortfolioManager._validate_buy_order`: the affordability block (with its
1% fee/slippage buffer and early `return 0`), then the max-position-size and
cash-reserve blocks.  The `Config` globals are explicit parameters here. -/
def validate_buy_order (max_position_size cash_reserve : ℚ) (symbol : String)
    (quantity : ℤ) (price : ℚ) (portfolio_state : PortfolioState) : ℤ :=
  let cost := (quantity : ℚ) * price
  let required_cash := cost * (101 / 100)
  if required_cash > portfolio_state.cash then
    let max_quantity := pyInt (portfolio_state.cash / (101 / 100) / price)
    if max_quantity ≤ 0 then 0
    else validate_buy_position max_position_size cash_reserve symbol max_quantity price
      portfolio_state
  else validate_buy_position max_position_size cash_reserve symbol quantity price
    portfolio_state

/-- One trading day's OHLCV bar (`StockData` in `shared_models.py`). -/
structure StockData where
  symbol : String
  date : ℤ
  «open» : ℚ
  high : ℚ
  low : ℚ
  close : ℚ
  volume : ℤ
  adj_close : ℚ
deriving DecidableEq, Repr

/-- Construction of a `StockData` bar through `__post_init__` validation:
`none` models the `ValueError` raised when `high < low` or `volume < 0`. -/
def mkStockData (symbol : String) (date : ℤ) (o h l c : ℚ) (volume : ℤ)
    (adj_close : ℚ) : Option StockData :=
  if h < l then none
  else if volume < 0 then none
  else some ⟨symbol, date, o, h, l, c, volume, adj_close⟩

/-- Python slice `xs[-n:]` for a natural `n`: the last `n` elements, except
that `xs[-0:]` is the whole list. -/
def pySliceLastN (n : ℕ) (xs : List α) : List α :=
  if n = 0 then xs else xs.drop (xs.length - n)

/-- `DataLoader.get_price_data` (`data_loader.py`): filter the symbol's cached
series to bars dated on or before `end_date`, then keep the last
`lookback_days` entries via the slice `filtered[-lookback_days:]`. -/
def get_price_data (all_data : List StockData) (end_date : ℤ) (lookback_days : ℕ) :
    List StockData :=
  let filtered := all_data.filter (fun d => decide (d.date ≤ end_date))
  if filtered.length > lookback_days then pySliceLastN lookback_days filtered
  else filtered

/-- `numpy.mean` over an exact-rational series (0 on the empty series, which
the callers under verification always guard against). -/
def mean (xs : List ℚ) : ℚ :=
  xs.sum / (xs.length : ℚ)

/-- The population variance `numpy.std(xs) ** 2`: the mean squared deviation
from the mean.  `numpy.std xs` itself is `sqrtFn (variance xs)` below. -/
def variance (xs : List ℚ) : ℚ :=
  mean (xs.map (fun x => (x - mean xs) ^ 2))

/-- `PerformanceMetrics.sharpe_ratio` (`metrics.py`).  `sqrtFn` stands for
`numpy.sqrt`, so `numpy.std excess = sqrtFn (variance excess)` and the
annualization factor is `sqrtFn periods_per_year`. -/
def sharpe_ratio (sqrtFn : ℚ → ℚ) (returns : List ℚ)
    (risk_free_rate periods_per_year : ℚ) : ℚ :=
  if returns.length = 0 then 0
  else
    let daily_rf_rate := risk_free_rate / periods_per_year
    let excess_returns := returns.map (fun r => r - daily_rf_rate)
    if sqrtFn (variance excess_returns) = 0 then 0
    else mean excess_returns / sqrtFn (variance excess_returns) * sqrtFn periods_per_year

/-- `PerformanceMetrics.sortino_ratio` (`metrics.py`): as `sharpe_ratio`, but
the denominator is the standard deviation of the negative excess returns
only, with an extra guard on there being any. -/
def sortino_ratio (sqrtFn : ℚ → ℚ) (returns : List ℚ)
    (risk_free_rate periods_per_year : ℚ) : ℚ :=
  if returns.length = 0 then 0
  else
    let daily_rf_rate := risk_free_rate / periods_per_year
    let excess_returns := returns.map (fun r => r - daily_rf_rate)
    let downside_returns := excess_returns.filter (fun r => decide (r < 0))
    if downside_returns.length = 0 ∨ sqrtFn (variance downside_returns) = 0 then 0
    else mean excess_returns / sqrtFn (variance downside_returns) * sqrtFn periods_per_year

/-- The running maximum continued from an already-accumulated maximum `m`:
`numpy.maximum.accumulate` unfolded one step at a time. -/
def runningMaxAcc (m : ℚ) : List ℚ → List ℚ
  | [] => []
  | v :: vs => max m v :: runningMaxAcc (max m v) vs

/-- `numpy.maximum.accumulate`: the elementwise running maximum. -/
def runningMax : List ℚ → List ℚ
  | [] => []
  | v :: vs => v :: runningMaxAcc v vs

/-- The elementwise drawdowns `(values - running_max) / running_max`. -/
def drawdowns (values : List ℚ) : List ℚ :=
  List.zipWith (fun v m => (v - m) / m) values (runningMax values)

/-- `numpy.min` over a nonempty series (0 on the empty series, which
`max_drawdown` guards against). -/
def listMin : List ℚ → ℚ
  | [] => 0
  | x :: xs => xs.foldl min x

/-- `PerformanceMetrics.max_drawdown` (`metrics.py`): 0 on an empty series,
else the absolute value of the most negative drawdown, as a percentage. -/
def max_drawdown (portfolio_values : List ℚ) : ℚ :=
  if portfolio_values.length = 0 then 0
  else |listMin (drawdowns portfolio_values)| * 100

/-- The earliest BUY at `sym` anywhere in the trade history, if any, and its
price. -/
def first_buy_price (h : List TradeOrder) (sym : String) : Option ℚ :=
  (h.find? (fun t => decide (t.symbol = sym ∧ t.action = SignalType.BUY))).map
    (fun t => t.price)

/-- What `get_trade_pnls` actually computes, phrased independently of its
grouping loop: for each symbol in first-occurrence order, every sell at that
symbol is paired with the earliest buy at that symbol regardless of previous
matches, and a sell at a symbol with no buy produces no entry. -/
def first_buy_pnls (h : List TradeOrder) : List ℚ :=
  ((symbolOrder h).map (fun sym =>
    (h.filter (fun t => decide (t.symbol = sym ∧ t.action = SignalType.SELL))).filterMap
      (fun sell => (first_buy_price h sym).map
        (fun bp => (sell.price - bp) * (sell.quantity : ℚ))))).flatten

/-- Modelled from the claim's words, not from the source: one-to-one FIFO
pairing, where for each symbol the k-th sell is matched with the k-th buy
(each buy is consumed by the sell it matches). -/
def fifo_one_to_one_pnls (h : List TradeOrder) : List ℚ :=
  ((symbolOrder h).map (fun sym =>
    let trades := h.filter (fun t => decide (t.symbol = sym))
    let buys := trades.filter (fun t => decide (t.action = SignalType.BUY))
    let sells := trades.filter (fun t => decide (t.action = SignalType.SELL))
    List.zipWith (fun buy sell => (sell.price - buy.price) * (sell.quantity : ℚ))
      buys sells)).flatten

/-- The portfolio snapshot of the C2 scenario: cash 100000, no positions,
total value 100000. -/
def c2_portfolio : PortfolioState := ⟨100000, [], 100000⟩

/-- The order of the C2 scenario: BUY 100 shares of X at 50. -/
def c2_order : TradeOrder := ⟨"X", SignalType.BUY, 100, 50⟩

/-- A fresh simulator with initial capital 100000. -/
def c2_sim : TradingSimulator := ⟨100000, [], []⟩

/-- C2 (amended): with cash 100000 and no positions, a BUY intent for 100
shares of X at 50 under `max_position_fraction` 0.3 validates to exactly 100,
and applying the order leaves cash 95000 (the simulator debits
`quantity * price` with no fee buffer) and positions `{X: 100}`. -/
theorem buy_scenario_exact :
    validate_buy_order MAX_POSITION_SIZE CASH_RESERVE "X" 100 50 c2_portfolio = 100 ∧
    (execute_trades c2_sim [c2_order]).cash = 95000 ∧
    (execute_trades c2_sim [c2_order]).positions = [("X", 100)] := by
  refine ⟨?_, ?_, ?_⟩ <;>
    norm_num [validate_buy_order, validate_buy_position, validate_buy_reserve,
      execute_trades, apply_trade, execute_buy, posGet, posSet,
      c2_portfolio, c2_order, c2_sim, MAX_POSITION_SIZE, CASH_RESERVE]

/-- C2 counterexample: after the scenario's buy is applied, cash is 95000,
not 94950 as claimed — the 1% fee buffer is used only for validation sizing,
never charged at execution. -/
theorem buy_scenario_cash_not_94950 :
    (execute_trades c2_sim [c2_order]).cash = 95000 ∧
    (execute_trades c2_sim [c2_order]).cash ≠ 94950 := by
  constructor <;>
    norm_num [execute_trades, apply_trade, execute_buy, posGet, posSet, c2_sim, c2_order]

/-- Applying one order always appends it to the trade history, whether or not
it executes. -/
theorem apply_trade_trade_history (st : TradingSimulator) (t : TradeOrder) :
    (apply_trade st t).trade_history = st.trade_history ++ [t] := by
  unfold apply_trade
  cases ha : t.action <;>
    simp only [execute_buy, execute_sell] <;>
    split_ifs <;> rfl

/-- A skipped buy (cost above cash) leaves the state unchanged. -/
theorem execute_buy_skip (st : TradingSimulator) (t : TradeOrder)
    (h : st.cash < (t.quantity : ℚ) * t.price) : execute_buy st t = st := by
  unfold execute_buy
  rw [if_neg (not_le.mpr h)]

/-- A skipped sell (quantity above the held position) leaves the state
unchanged. -/
theorem execute_sell_skip (st : TradingSimulator) (t : TradeOrder)
    (h : posGet st.positions t.symbol < t.quantity) : execute_sell st t = st := by
  unfold execute_sell
  rw [if_neg (not_le.mpr h)]

/-- C8: an order that is unexecutable at apply time — a BUY whose cost exceeds
current cash, or a SELL whose quantity exceeds the held shares — is appended
to the trade log while cash and positions stay exactly as they were. -/
theorem unexecutable_order_logged_no_effect (st : TradingSimulator) (t : TradeOrder)
    (h : (t.action = SignalType.BUY ∧ st.cash < (t.quantity : ℚ) * t.price) ∨
         (t.action = SignalType.SELL ∧ posGet st.positions t.symbol < t.quantity)) :
    execute_trades st [t] = { st with trade_history := st.trade_history ++ [t] } := by
  have hone : execute_trades st [t] = apply_trade st t := rfl
  rw [hone]
  unfold apply_trade
  rcases h with ⟨ha, hc⟩ | ⟨ha, hc⟩
  · rw [ha]
    simp only [execute_buy_skip st t hc]
  · rw [ha]
    simp only [execute_sell_skip st t hc]

/-- An empty simulator and a buy it cannot afford, for the C8 witness. -/
def c8_sim : TradingSimulator := ⟨0, [], []⟩

/-- A BUY of 1 share of X at 50: cost 50 exceeds the cash 0 of `c8_sim`. -/
def c8_order : TradeOrder := ⟨"X", SignalType.BUY, 1, 50⟩

/-- Witness for C8 at a concrete unexecutable buy. -/
theorem unexecutable_order_logged_no_effect_witness :
    execute_trades c8_sim [c8_order] =
      { c8_sim with trade_history := c8_sim.trade_history ++ [c8_order] } :=
  unexecutable_order_logged_no_effect c8_sim c8_order
    (Or.inl ⟨rfl, by norm_num [c8_sim, c8_order]⟩)

/-- C9 (amended): `StockData` construction succeeds exactly when
`high ≥ low` and `volume ≥ 0`, and every successfully constructed bar
satisfies those two checks — the only ones `__post_init__` performs. -/
theorem mkStockData_validation_spec (symbol : String) (date : ℤ) (o h l c : ℚ)
    (volume : ℤ) (adj_close : ℚ) :
    (mkStockData symbol date o h l c volume adj_close = none ↔ h < l ∨ volume < 0) ∧
    (mkStockData symbol date o h l c volume adj_close).elim True
      (fun b => b.low ≤ b.high ∧ 0 ≤ b.volume) := by
  unfold mkStockData
  split_ifs with h1 h2
  · simp [h1]
  · simp [h2]
  · refine ⟨by simp [h1, h2], ?_⟩
    simp only [Option.elim]
    exact ⟨not_lt.mp h1, not_lt.mp h2⟩

/-- C9 counterexample: a bar whose open (200) exceeds its high (100) is
constructed without error, violating the claimed OHLC invariant
`high ≥ max(open, low, close)`. -/
theorem mkStockData_allows_open_above_high :
    (mkStockData "X" 0 200 100 50 60 0 60).isSome = true ∧
    (mkStockData "X" 0 200 100 50 60 0 60).elim False
      (fun b => ¬ (max b.«open» (max b.low b.close) ≤ b.high)) := by
  constructor <;> norm_num [mkStockData, Option.elim]

/-- The population variance of a constant three-element series vanishes; the
excess returns of the all-zero series are such a series. -/
theorem variance_const3 (a : ℚ) : variance [a, a, a] = 0 := by
  simp only [variance, mean, List.map_cons, List.map_nil, List.sum_cons, List.sum_nil,
    List.length_cons, List.length_nil, List.length_map]
  push_cast
  ring

/-- C7: the degenerate metric inputs all yield exactly 0 (and, arithmetic
being exact here, no NaN or Inf can arise): the Sharpe ratio of an empty
series, the Sharpe ratio of the zero-variance series `[0,0,0]` (its excess
returns have standard deviation 0), and the Sortino ratio of an empty series,
for every square-root function with `sqrtFn 0 = 0`, every risk-free rate and
every period count. -/
theorem degenerate_metrics_zero (sqrtFn : ℚ → ℚ) (rf p : ℚ) (h0 : sqrtFn 0 = 0) :
    sharpe_ratio sqrtFn [] rf p = 0 ∧
    sharpe_ratio sqrtFn [0, 0, 0] rf p = 0 ∧
    sortino_ratio sqrtFn [] rf p = 0 := by
  refine ⟨by simp [sharpe_ratio], ?_, by simp [sortino_ratio]⟩
  simp [sharpe_ratio, variance_const3, h0]

/-- Witness for C7 with the identity as the square-root function. -/
theorem degenerate_metrics_zero_witness :
    sharpe_ratio id [] RISK_FREE_RATE TRADING_DAYS_PER_YEAR = 0 ∧
    sharpe_ratio id [0, 0, 0] RISK_FREE_RATE TRADING_DAYS_PER_YEAR = 0 ∧
    sortino_ratio id [] RISK_FREE_RATE TRADING_DAYS_PER_YEAR = 0 :=
  degenerate_metrics_zero id RISK_FREE_RATE TRADING_DAYS_PER_YEAR rfl

/-- C4 (amended): for every lookback count `n ≥ 1`, the window query returns
exactly `min n k` bars where `k` counts the bars dated on or before `D`,
contains no bar dated strictly after `D`, and is a suffix of the
chronologically filtered series (hence the most recent such bars, with all of
them returned when fewer than `n` exist).  For `n = 0` the bound fails, see
the counterexample. -/
theorem get_price_data_window_spec (all_data : List StockData) (end_date : ℤ) (n : ℕ)
    (hn : 1 ≤ n) :
    (get_price_data all_data end_date n).length =
      min n (all_data.filter (fun d => decide (d.date ≤ end_date))).length ∧
    (∀ b ∈ get_price_data all_data end_date n, b.date ≤ end_date) ∧
    (get_price_data all_data end_date n) <:+
      (all_data.filter (fun d => decide (d.date ≤ end_date))) := by
  have hmem : ∀ b ∈ all_data.filter (fun d => decide (d.date ≤ end_date)),
      b.date ≤ end_date := by
    intro b hb
    simpa using (List.mem_filter.mp hb).2
  unfold get_price_data pySliceLastN
  by_cases hlen : (all_data.filter (fun d => decide (d.date ≤ end_date))).length > n
  · rw [if_pos hlen, if_neg (by omega)]
    refine ⟨?_, ?_, List.drop_suffix _ _⟩
    · rw [List.length_drop]
      omega
    · intro b hb
      exact hmem b (List.mem_of_mem_drop hb)
  · rw [if_neg hlen]
    exact ⟨by omega, hmem, List.suffix_refl _⟩

/-- A single bar of symbol X dated 0, for the C4 witness and counterexample. -/
def c4_bar : StockData := ⟨"X", 0, 1, 1, 1, 1, 0, 1⟩

/-- Witness for C4 at a one-bar series with lookback 1. -/
theorem get_price_data_window_spec_witness :
    (get_price_data [c4_bar] 0 1).length =
      min 1 (([c4_bar] : List StockData).filter (fun d => decide (d.date ≤ 0))).length ∧
    (∀ b ∈ get_price_data [c4_bar] 0 1, b.date ≤ 0) ∧
    (get_price_data [c4_bar] 0 1) <:+
      (([c4_bar] : List StockData).filter (fun d => decide (d.date ≤ 0))) :=
  get_price_data_window_spec [c4_bar] 0 1 (by norm_num)

/-- C4 counterexample: with lookback count 0 the Python slice
`filtered[-0:]` is the whole filtered list, so the query returns 1 bar,
more than the claimed bound of at most 0 bars. -/
theorem get_price_data_zero_lookback_counterexample :
    (get_price_data [c4_bar] 0 0).length = 1 ∧
    ¬ ((get_price_data [c4_bar] 0 0).length ≤ 0) := by
  constructor <;> norm_num [get_price_data, pySliceLastN, c4_bar, List.filter]

/-- Every drawdown computed against a running maximum continued from a
positive seed, over nonnegative values, lies in `[-1, 0]`. -/
theorem drawdowns_acc_mem_Icc (vs : List ℚ) :
    ∀ m : ℚ, 0 < m → (∀ x ∈ vs, 0 ≤ x) →
      ∀ d ∈ List.zipWith (fun v mm => (v - mm) / mm) vs (runningMaxAcc m vs),
        -1 ≤ d ∧ d ≤ 0 := by
  induction vs with
  | nil =>
    intro m _ _ d hd
    simp [runningMaxAcc] at hd
  | cons v vs ih =>
    intro m hm hx d hd
    have hmv : 0 < max m v := lt_of_lt_of_le hm (le_max_left m v)
    rw [runningMaxAcc, List.zipWith_cons_cons] at hd
    rcases List.mem_cons.mp hd with he | he
    · subst he
      constructor
      · rw [le_div_iff₀ hmv]
        have := hx v (List.mem_cons_self v vs)
        linarith
      · rw [div_le_iff₀ hmv]
        have := le_max_right m v
        linarith
    · exact ih (max m v) hmv (fun x hxm => hx x (List.mem_cons_of_mem _ hxm)) d he

/-- Folding `min` over a list of values in `[-1, 0]`, starting from a value
in `[-1, 0]`, stays in `[-1, 0]`. -/
theorem foldl_min_mem_Icc (xs : List ℚ) :
    ∀ a : ℚ, -1 ≤ a → a ≤ 0 → (∀ x ∈ xs, -1 ≤ x ∧ x ≤ 0) →
      -1 ≤ xs.foldl min a ∧ xs.foldl min a ≤ 0 := by
  induction xs with
  | nil => intro a h1 h2 _; exact ⟨h1, h2⟩
  | cons x xs ih =>
    intro a h1 h2 hx
    rw [List.foldl_cons]
    have hhead := hx x (List.mem_cons_self x xs)
    exact ih (min a x) (le_min h1 hhead.1) (le_trans (min_le_left a x) h2)
      (fun y hy => hx y (List.mem_cons_of_mem _ hy))

/-- C5 (amended): `max_drawdown` is 0 on the empty series, and lies between 0
and 100 for every series of nonnegative values whose first value is positive.
(Without those sign conditions the bound fails, see the counterexample.) -/
theorem max_drawdown_bounds (v : ℚ) (vs : List ℚ) (hv : 0 < v)
    (hvs : ∀ x ∈ vs, 0 ≤ x) :
    max_drawdown [] = 0 ∧
    0 ≤ max_drawdown (v :: vs) ∧ max_drawdown (v :: vs) ≤ 100 := by
  have hne : ((v :: vs).length = 0) = False := by simp
  have hdd : drawdowns (v :: vs) =
      (v - v) / v :: List.zipWith (fun x mm => (x - mm) / mm) vs (runningMaxAcc v vs) := by
    rw [drawdowns, runningMax, List.zipWith_cons_cons]
  have hmin : -1 ≤ listMin (drawdowns (v :: vs)) ∧ listMin (drawdowns (v :: vs)) ≤ 0 := by
    rw [hdd, listMin]
    have hzero : (v - v) / v = 0 := by
      rw [sub_self, zero_div]
    rw [hzero]
    exact foldl_min_mem_Icc _ 0 (by norm_num) le_rfl (drawdowns_acc_mem_Icc vs v hv hvs)
  refine ⟨by simp [max_drawdown], ?_, ?_⟩
  · rw [max_drawdown, if_neg (by simp)]
    positivity
  · rw [max_drawdown, if_neg (by simp)]
    have habs : |listMin (drawdowns (v :: vs))| ≤ 1 :=
      abs_le.mpr ⟨hmin.1, le_trans hmin.2 (by norm_num)⟩
    calc |listMin (drawdowns (v :: vs))| * 100 ≤ 1 * 100 :=
          mul_le_mul_of_nonneg_right habs (by norm_num)
      _ = 100 := by norm_num

/-- Witness for C5 at the spec's own scenario series. -/
theorem max_drawdown_bounds_witness :
    max_drawdown [] = 0 ∧
    0 ≤ max_drawdown ((100000 : ℚ) :: [110000, 90000]) ∧
    max_drawdown ((100000 : ℚ) :: [110000, 90000]) ≤ 100 :=
  max_drawdown_bounds 100000 [110000, 90000] (by norm_num)
    (by
      intro x hx
      simp only [List.mem_cons, List.not_mem_nil, or_false] at hx
      rcases hx with rfl | rfl <;> norm_num)

/-- C5 counterexample: on a series with a negative value the reported
drawdown is 150, outside the claimed bound of 100. -/
theorem max_drawdown_exceeds_100_counterexample :
    max_drawdown [100, -50] = 150 ∧ ¬ (max_drawdown [100, -50] ≤ 100) := by
  have h : max_drawdown [100, -50] = 150 := by
    rw [max_drawdown, if_neg (by simp)]
    have hdd : drawdowns [100, -50] = [(100 - 100) / 100, (-50 - 100) / 100] := by
      rw [drawdowns, runningMax, runningMaxAcc, runningMaxAcc]
      norm_num
    have hmin2 : listMin [(100 - 100) / 100, ((-50 : ℚ) - 100) / 100] = -(3 / 2) := by
      rw [listMin]
      norm_num [min_def]
    rw [hdd, hmin2, abs_neg, abs_of_nonneg (by norm_num : (0 : ℚ) ≤ 3 / 2)]
    norm_num
  exact ⟨h, by rw [h]; norm_num⟩

/-- Truncation toward zero of a nonnegative rational is its floor. -/
theorem pyInt_of_nonneg (x : ℚ) (hx : 0 ≤ x) : pyInt x = ⌊x⌋ := by
  rw [pyInt, if_pos hx]

/-- Truncation toward zero of a nonnegative rational is nonnegative. -/
theorem pyInt_nonneg (x : ℚ) (hx : 0 ≤ x) : 0 ≤ pyInt x := by
  rw [pyInt_of_nonneg x hx]
  exact Int.floor_nonneg.mpr hx

/-- Truncation toward zero of a nonnegative rational does not exceed it. -/
theorem pyInt_le (x : ℚ) (hx : 0 ≤ x) : (pyInt x : ℚ) ≤ x := by
  rw [pyInt_of_nonneg x hx]
  exact Int.floor_le x

/-- The cash-reserve block never returns a negative quantity. -/
theorem validate_buy_reserve_nonneg (cash_reserve : ℚ) (q : ℤ) (price : ℚ)
    (ps : PortfolioState) : 0 ≤ validate_buy_reserve cash_reserve q price ps := by
  simp only [validate_buy_reserve]
  split_ifs <;> simp

/-- The max-position block never returns a negative quantity. -/
theorem validate_buy_position_nonneg (mps cash_reserve : ℚ) (symbol : String) (q : ℤ)
    (price : ℚ) (ps : PortfolioState) :
    0 ≤ validate_buy_position mps cash_reserve symbol q price ps := by
  simp only [validate_buy_position]
  split_ifs <;> first
    | simp
    | exact validate_buy_reserve_nonneg _ _ _ _

/-- The full buy validator never returns a negative quantity. -/
theorem validate_buy_order_nonneg (mps cash_reserve : ℚ) (symbol : String) (q : ℤ)
    (price : ℚ) (ps : PortfolioState) :
    0 ≤ validate_buy_order mps cash_reserve symbol q price ps := by
  simp only [validate_buy_order]
  split_ifs <;> first
    | simp
    | exact validate_buy_position_nonneg _ _ _ _ _ _

/-- The cash-reserve block never grows a nonnegative quantity. -/
theorem validate_buy_reserve_le (cash_reserve : ℚ) (q : ℤ) (price : ℚ)
    (ps : PortfolioState) (hq : 0 ≤ q) :
    validate_buy_reserve cash_reserve q price ps ≤ q := by
  simp only [validate_buy_reserve]
  split_ifs
  · exact hq
  · exact max_le hq (min_le_left _ _)
  · exact max_le hq le_rfl

/-- The max-position block never grows a nonnegative quantity when the price
is positive. -/
theorem validate_buy_position_le (mps cash_reserve : ℚ) (symbol : String) (q : ℤ)
    (price : ℚ) (ps : PortfolioState) (hq : 0 ≤ q) (hp : 0 < price) :
    validate_buy_position mps cash_reserve symbol q price ps ≤ q := by
  simp only [validate_buy_position]
  split_ifs with h1 h2
  · exact hq
  · have hapv : (0 : ℚ) ≤
        (ps.total_value * mps - (posGet ps.positions symbol : ℚ) * price) / price :=
      div_nonneg (by linarith [not_le.mp h2]) hp.le
    have hminq : 0 ≤ min q (pyInt
        ((ps.total_value * mps - (posGet ps.positions symbol : ℚ) * price) / price)) :=
      le_min hq (pyInt_nonneg _ hapv)
    exact le_trans (validate_buy_reserve_le _ _ _ _ hminq) (min_le_left _ _)
  · exact validate_buy_reserve_le _ _ _ _ hq

/-- The full buy validator never grows a nonnegative desired quantity, for a
positive price and nonnegative cash. -/
theorem validate_buy_order_le (mps cash_reserve : ℚ) (symbol : String) (q : ℤ)
    (price : ℚ) (ps : PortfolioState) (hq : 0 ≤ q) (hp : 0 < price)
    (hc : 0 ≤ ps.cash) :
    validate_buy_order mps cash_reserve symbol q price ps ≤ q := by
  simp only [validate_buy_order]
  split_ifs with h1 h2
  · exact hq
  · have harg : (0 : ℚ) ≤ ps.cash / (101 / 100) / price :=
      div_nonneg (div_nonneg hc (by norm_num)) hp.le
    have hlt : ps.cash / (101 / 100) / price < (q : ℚ) := by
      rw [div_div, div_lt_iff₀ (by positivity)]
      calc ps.cash < (q : ℚ) * price * (101 / 100) := h1
        _ = (q : ℚ) * (101 / 100 * price) := by ring
    have hmlt : pyInt (ps.cash / (101 / 100) / price) < q := by
      have hext := lt_of_le_of_lt (pyInt_le _ harg) hlt
      exact_mod_cast hext
    have hm0 : 0 ≤ pyInt (ps.cash / (101 / 100) / price) := pyInt_nonneg _ harg
    exact le_trans (validate_buy_position_le _ _ _ _ _ _ hm0 hp) (le_of_lt hmlt)
  · exact validate_buy_position_le _ _ _ _ _ _ hq hp

/-- C6: for every portfolio state with nonnegative cash, every positive price
and every nonnegative desired quantity, the validated quantity never exceeds
the desired quantity, and it is 0 whenever the available cash cannot cover
even one share at the fee-buffered price `price * 1.01`. -/
theorem validate_buy_monotone_and_insufficient (mps cash_reserve : ℚ) (symbol : String)
    (q : ℤ) (price : ℚ) (ps : PortfolioState) (hq : 0 ≤ q) (hp : 0 < price)
    (hc : 0 ≤ ps.cash) :
    validate_buy_order mps cash_reserve symbol q price ps ≤ q ∧
    (ps.cash < 1 * price * (101 / 100) →
      validate_buy_order mps cash_reserve symbol q price ps = 0) := by
  refine ⟨validate_buy_order_le _ _ _ _ _ _ hq hp hc, fun hcash => ?_⟩
  rcases lt_or_eq_of_le hq with hq1 | hq0
  · have hq1' : (1 : ℚ) ≤ (q : ℚ) := by exact_mod_cast hq1
    have hppos : (0 : ℚ) < price * (101 / 100) := by positivity
    have hcond1 : (q : ℚ) * price * (101 / 100) > ps.cash := by
      calc ps.cash < 1 * price * (101 / 100) := hcash
        _ = price * (101 / 100) := by ring
        _ ≤ (q : ℚ) * (price * (101 / 100)) := le_mul_of_one_le_left hppos.le hq1'
        _ = (q : ℚ) * price * (101 / 100) := by ring
    have harg : (0 : ℚ) ≤ ps.cash / (101 / 100) / price :=
      div_nonneg (div_nonneg hc (by norm_num)) hp.le
    have hlt1 : ps.cash / (101 / 100) / price < 1 := by
      rw [div_div, div_lt_one (by positivity)]
      calc ps.cash < 1 * price * (101 / 100) := hcash
        _ = 101 / 100 * price := by ring
    have hcond2 : pyInt (ps.cash / (101 / 100) / price) ≤ 0 := by
      rw [pyInt_of_nonneg _ harg]
      have hfl : ⌊ps.cash / (101 / 100) / price⌋ < 1 :=
        Int.floor_lt.mpr (by exact_mod_cast hlt1)
      omega
    simp only [validate_buy_order]
    rw [if_pos hcond1, if_pos hcond2]
  · have h1 := validate_buy_order_le mps cash_reserve symbol q price ps hq hp hc
    have h2 := validate_buy_order_nonneg mps cash_reserve symbol q price ps
    omega

/-- Witness for C6 at the C2 scenario's inputs. -/
theorem validate_buy_monotone_and_insufficient_witness :
    validate_buy_order MAX_POSITION_SIZE CASH_RESERVE "X" 100 50 c2_portfolio ≤ 100 ∧
    (c2_portfolio.cash < 1 * 50 * (101 / 100) →
      validate_buy_order MAX_POSITION_SIZE CASH_RESERVE "X" 100 50 c2_portfolio = 0) :=
  validate_buy_monotone_and_insufficient MAX_POSITION_SIZE CASH_RESERVE "X" 100 50
    c2_portfolio (by norm_num) (by norm_num) (by norm_num [c2_portfolio])

/-- Looking up a symbol in a dict with strictly positive entries yields a
nonnegative share count (0 when absent). -/
theorem posGet_nonneg (ps : List (String × ℤ)) (s : String)
    (h : ∀ p ∈ ps, 0 < p.2) : 0 ≤ posGet ps s := by
  induction ps with
  | nil => simp [posGet]
  | cons kv rest ih =>
    obtain ⟨k, v⟩ := kv
    simp only [posGet]
    split_ifs
    · have hv : 0 < v := h (k, v) (List.mem_cons_self _ _)
      omega
    · exact ih (fun p hp => h p (List.mem_cons_of_mem _ hp))

/-- Every entry of a dict after an update is the updated entry or one of the
old entries. -/
theorem mem_posSet (ps : List (String × ℤ)) (s : String) (v : ℤ) :
    ∀ p ∈ posSet ps s v, p = (s, v) ∨ p ∈ ps := by
  induction ps with
  | nil => simp [posSet]
  | cons kv rest ih =>
    obtain ⟨k, x⟩ := kv
    simp only [posSet]
    split_ifs with hk
    · intro p hp
      rcases List.mem_cons.mp hp with he | he
      · left
        rw [he, hk]
      · right
        exact List.mem_cons_of_mem _ he
    · intro p hp
      rcases List.mem_cons.mp hp with he | he
      · right
        rw [he]
        exact List.mem_cons_self _ _
      · rcases ih p he with h2 | h2
        · left
          exact h2
        · right
          exact List.mem_cons_of_mem _ h2

/-- Updating a key and then deleting it leaves only entries of the original
dict. -/
theorem mem_posDel_posSet (ps : List (String × ℤ)) (s : String) (v : ℤ) :
    ∀ p ∈ posDel (posSet ps s v) s, p ∈ ps := by
  induction ps with
  | nil => simp [posSet, posDel]
  | cons kv rest ih =>
    obtain ⟨k, x⟩ := kv
    simp only [posSet]
    split_ifs with hk
    · simp only [posDel, if_pos hk]
      intro p hp
      exact List.mem_cons_of_mem _ hp
    · simp only [posDel, if_neg hk]
      intro p hp
      rcases List.mem_cons.mp hp with he | he
      · rw [he]
        exact List.mem_cons_self _ _
      · exact List.mem_cons_of_mem _ (ih p he)

/-- In a dict with strictly positive entries, a symbol reads as 0 exactly when
it is absent. -/
theorem posGet_eq_zero_iff (ps : List (String × ℤ)) (h : ∀ p ∈ ps, 0 < p.2)
    (s : String) : posGet ps s = 0 ↔ posHas ps s = false := by
  induction ps with
  | nil => simp [posGet, posHas]
  | cons kv rest ih =>
    obtain ⟨k, v⟩ := kv
    simp only [posGet, posHas]
    split_ifs with hk
    · constructor
      · intro h0
        exfalso
        have hv : 0 < v := h (k, v) (List.mem_cons_self _ _)
        omega
      · intro hf
        simp at hf
    · exact ih (fun p hp => h p (List.mem_cons_of_mem _ hp))

/-- A buy preserves nonnegative cash and strictly positive positions: it only
executes when cash covers the cost, and adds a positive quantity. -/
theorem execute_buy_inv (st : TradingSimulator) (t : TradeOrder) (hc : 0 ≤ st.cash)
    (hp : ∀ p ∈ st.positions, 0 < p.2) (hqt : 0 < t.quantity) :
    0 ≤ (execute_buy st t).cash ∧ ∀ p ∈ (execute_buy st t).positions, 0 < p.2 := by
  simp only [execute_buy]
  split_ifs with hcost
  · refine ⟨sub_nonneg.mpr hcost, ?_⟩
    intro p hp2
    rcases mem_posSet _ _ _ p hp2 with he | he
    · rw [he]
      show 0 < posGet st.positions t.symbol + t.quantity
      have h0 := posGet_nonneg st.positions t.symbol hp
      omega
    · exact hp p he
  · exact ⟨hc, hp⟩

/-- A sell preserves nonnegative cash and strictly positive positions: it only
executes when enough shares are held, and deletes the entry when it reaches
zero. -/
theorem execute_sell_inv (st : TradingSimulator) (t : TradeOrder) (hc : 0 ≤ st.cash)
    (hp : ∀ p ∈ st.positions, 0 < p.2) (hqt : 0 < t.quantity) (hpr : 0 < t.price) :
    0 ≤ (execute_sell st t).cash ∧ ∀ p ∈ (execute_sell st t).positions, 0 < p.2 := by
  have hproc : (0 : ℚ) ≤ (t.quantity : ℚ) * t.price :=
    mul_nonneg (by exact_mod_cast hqt.le) hpr.le
  simp only [execute_sell]
  split_ifs with hcur hzero
  · refine ⟨show (0 : ℚ) ≤ st.cash + (t.quantity : ℚ) * t.price by linarith, ?_⟩
    intro p hp2
    exact hp p (mem_posDel_posSet _ _ _ p hp2)
  · refine ⟨show (0 : ℚ) ≤ st.cash + (t.quantity : ℚ) * t.price by linarith, ?_⟩
    intro p hp2
    rcases mem_posSet _ _ _ p hp2 with he | he
    · rw [he]
      show 0 < posGet st.positions t.symbol - t.quantity
      omega
    · exact hp p he
  · exact ⟨hc, hp⟩

/-- One loop iteration of `execute_trades` preserves the ledger invariants,
for an order with positive quantity and price (the `TradeOrder` dataclass
invariant). -/
theorem apply_trade_inv (st : TradingSimulator) (t : TradeOrder) (hc : 0 ≤ st.cash)
    (hp : ∀ p ∈ st.positions, 0 < p.2) (hqt : 0 < t.quantity) (hpr : 0 < t.price) :
    0 ≤ (apply_trade st t).cash ∧ ∀ p ∈ (apply_trade st t).positions, 0 < p.2 := by
  cases ha : t.action
  · simpa [apply_trade, ha] using execute_buy_inv st t hc hp hqt
  · simpa [apply_trade, ha] using execute_sell_inv st t hc hp hqt hpr
  · simpa [apply_trade, ha] using And.intro hc hp

/-- The ledger invariants are preserved by any sequence of applied orders. -/
theorem execute_trades_inv_aux (ts : List TradeOrder) :
    ∀ st : TradingSimulator, 0 ≤ st.cash → (∀ p ∈ st.positions, 0 < p.2) →
      (∀ t ∈ ts, 0 < t.quantity ∧ 0 < t.price) →
      0 ≤ (execute_trades st ts).cash ∧
        ∀ p ∈ (execute_trades st ts).positions, 0 < p.2 := by
  induction ts with
  | nil =>
    intro st hc hp _
    exact ⟨hc, hp⟩
  | cons t ts ih =>
    intro st hc hp hts
    have hh := hts t (List.mem_cons_self _ _)
    have hstep := apply_trade_inv st t hc hp hh.1 hh.2
    exact ih (apply_trade st t) hstep.1 hstep.2
      (fun u hu => hts u (List.mem_cons_of_mem _ hu))

/-- C3: starting from nonnegative cash and a positions map whose entries are
all strictly positive, after executing any sequence of orders (each with the
positive quantity and price the `TradeOrder` dataclass guarantees) the cash is
nonnegative, every recorded position is strictly positive (hence nonnegative),
and a symbol is absent from the map exactly when its share count reads 0:
infeasible mutations were refused, never clamped. -/
theorem execute_trades_preserves_invariants (st : TradingSimulator)
    (ts : List TradeOrder) (hc : 0 ≤ st.cash) (hp : ∀ p ∈ st.positions, 0 < p.2)
    (hts : ∀ t ∈ ts, 0 < t.quantity ∧ 0 < t.price) :
    0 ≤ (execute_trades st ts).cash ∧
    (∀ p ∈ (execute_trades st ts).positions, 0 < p.2) ∧
    (∀ s, posGet (execute_trades st ts).positions s = 0 ↔
      posHas (execute_trades st ts).positions s = false) := by
  have hmain := execute_trades_inv_aux ts st hc hp hts
  exact ⟨hmain.1, hmain.2, fun s => posGet_eq_zero_iff _ hmain.2 s⟩

/-- A fresh simulator for the C3 witness. -/
def c3_sim : TradingSimulator := ⟨100000, [], []⟩

/-- A buy of 100 shares of X at 50 for the C3 witness. -/
def c3_buy : TradeOrder := ⟨"X", SignalType.BUY, 100, 50⟩

/-- A sell of the same 100 shares at 60 for the C3 witness. -/
def c3_sell : TradeOrder := ⟨"X", SignalType.SELL, 100, 60⟩

/-- Witness for C3 on a concrete buy-then-sell run. -/
theorem execute_trades_preserves_invariants_witness :
    0 ≤ (execute_trades c3_sim [c3_buy, c3_sell]).cash ∧
    (∀ p ∈ (execute_trades c3_sim [c3_buy, c3_sell]).positions, 0 < p.2) ∧
    (∀ s, posGet (execute_trades c3_sim [c3_buy, c3_sell]).positions s = 0 ↔
      posHas (execute_trades c3_sim [c3_buy, c3_sell]).positions s = false) :=
  execute_trades_preserves_invariants c3_sim [c3_buy, c3_sell]
    (by norm_num [c3_sim]) (by simp [c3_sim])
    (by
      intro t ht
      simp only [List.mem_cons, List.not_mem_nil, or_false] at ht
      rcases ht with rfl | rfl <;> norm_num [c3_buy, c3_sell])

/-- The trade history after a run is the original history with every
submitted order appended, executed or not. -/
theorem execute_trades_history_aux (ts : List TradeOrder) :
    ∀ st : TradingSimulator,
      (execute_trades st ts).trade_history = st.trade_history ++ ts := by
  induction ts with
  | nil =>
    intro st
    simp [execute_trades]
  | cons t ts ih =>
    intro st
    have hstep : execute_trades st (t :: ts) = execute_trades (apply_trade st t) ts := rfl
    rw [hstep, ih, apply_trade_trade_history]
    simp

/-- A simulator with cash 100 for the C10 run. -/
def c10_sim : TradingSimulator := ⟨100, [], []⟩

/-- A buy of 1 share of X at 50 that executes in the C10 run. -/
def c10_buy : TradeOrder := ⟨"X", SignalType.BUY, 1, 50⟩

/-- A sell of 5 shares of X at 60 that is refused in the C10 run (only 1
share is held). -/
def c10_sell : TradeOrder := ⟨"X", SignalType.SELL, 5, 60⟩

/-- C10: the trade log retains every submitted order, including refused ones;
`get_trade_count` is the length of that full log; and in a run where the sell
of 5 shares was refused (the position stays at 1 share and the balance is
untouched), the refused sell still counts toward the trade count and is still
paired into the reported P&L list, contributing `(60 - 50) * 5 = 50`. -/
theorem trade_log_retains_refused_orders :
    (∀ (st : TradingSimulator) (ts : List TradeOrder),
      (execute_trades st ts).trade_history = st.trade_history ++ ts) ∧
    (∀ st : TradingSimulator, get_trade_count st = st.trade_history.length) ∧
    (execute_trades c10_sim [c10_buy, c10_sell]).positions = [("X", 1)] ∧
    (execute_trades c10_sim [c10_buy, c10_sell]).cash = 50 ∧
    get_trade_count (execute_trades c10_sim [c10_buy, c10_sell]) = 2 ∧
    get_trade_pnls (execute_trades c10_sim [c10_buy, c10_sell]) = [50] := by
  refine ⟨fun st ts => execute_trades_history_aux ts st, fun st => rfl, ?_, ?_, ?_, ?_⟩ <;>
    simp [execute_trades, apply_trade, execute_buy, execute_sell, get_trade_count,
      get_trade_pnls, symbolOrder, symbolPnls, posGet, posSet,
      c10_sim, c10_buy, c10_sell, List.foldl, List.filter, List.filterMap] <;>
    norm_num

/-- The head of a filtered list is the first element satisfying the filter. -/
theorem head?_filter_eq_find? (p : α → Bool) (l : List α) :
    (l.filter p).head? = l.find? p := by
  induction l with
  | nil => rfl
  | cons a l ih =>
    cases hpa : p a <;> simp [List.filter_cons, List.find?_cons, hpa, ih]

/-- Searching a filtered list is searching the original list with the
conjunction of the predicates. -/
theorem find?_filter_eq (p q : α → Bool) (l : List α) :
    (l.filter p).find? q = l.find? (fun a => p a && q a) := by
  induction l with
  | nil => rfl
  | cons a l ih =>
    cases hpa : p a <;> cases hqa : q a <;>
      simp [List.filter_cons, List.find?_cons, hpa, hqa, ih]

/-- Filtering by symbol and then by action is one filter by the conjunction. -/
theorem filter_symbol_action (l : List TradeOrder) (sym : String) (act : SignalType) :
    (l.filter (fun t => decide (t.symbol = sym))).filter
        (fun t => decide (t.action = act)) =
      l.filter (fun t => decide (t.symbol = sym ∧ t.action = act)) := by
  induction l with
  | nil => rfl
  | cons t l ih =>
    by_cases hs : t.symbol = sym <;> by_cases ha : t.action = act <;>
      simp [List.filter_cons, hs, ha, ih]

/-- The first buy in the per-symbol buy list of `get_trade_pnls` is the first
buy at that symbol in the whole history. -/
theorem buys_head_eq_first_buy (h : List TradeOrder) (sym : String) :
    ((h.filter (fun t => decide (t.symbol = sym))).filter
        (fun t => decide (t.action = SignalType.BUY))).head? =
      h.find? (fun t => decide (t.symbol = sym ∧ t.action = SignalType.BUY)) := by
  rw [head?_filter_eq_find?, find?_filter_eq]
  congr 1
  funext t
  by_cases hs : t.symbol = sym <;> by_cases ha : t.action = SignalType.BUY <;>
    simp [hs, ha]

/-- The per-symbol P&L entries of `get_trade_pnls`, restated against the
first buy of the symbol in the whole history. -/
theorem symbolPnls_eq_first_buy (h : List TradeOrder) (sym : String) :
    symbolPnls h sym =
      (h.filter (fun t => decide (t.symbol = sym ∧ t.action = SignalType.SELL))).filterMap
        (fun sell => (first_buy_price h sym).map
          (fun bp => (sell.price - bp) * (sell.quantity : ℚ))) := by
  simp only [symbolPnls]
  rw [filter_symbol_action h sym SignalType.SELL]
  congr 1
  funext sell
  rw [buys_head_eq_first_buy h sym]
  simp only [first_buy_price, Option.map_map]
  rfl

/-- C1 (amended): `get_trade_pnls` pairs, for each symbol in first-occurrence
order, every sell at that symbol with the earliest buy at that symbol in the
whole log — the same first buy for every sell, with buys never consumed, so
the pairing is not one-to-one — and each entry is
`(sell_price - first_buy_price) * sell_quantity`; sells at symbols with no
buy contribute no entry. -/
theorem get_trade_pnls_first_buy_pairing (st : TradingSimulator) :
    get_trade_pnls st = first_buy_pnls st.trade_history := by
  simp only [get_trade_pnls, first_buy_pnls]
  have hfun : symbolPnls st.trade_history = fun sym =>
      (st.trade_history.filter
          (fun t => decide (t.symbol = sym ∧ t.action = SignalType.SELL))).filterMap
        (fun sell => (first_buy_price st.trade_history sym).map
          (fun bp => (sell.price - bp) * (sell.quantity : ℚ))) :=
    funext (symbolPnls_eq_first_buy st.trade_history)
  rw [hfun]

/-- Two buys then two sells of X, all of one share: the history on which the
claimed one-to-one FIFO pairing and the implemented pairing disagree. -/
def c1_hist : List TradeOrder :=
  [⟨"X", SignalType.BUY, 1, 10⟩, ⟨"X", SignalType.BUY, 1, 20⟩,
   ⟨"X", SignalType.SELL, 1, 30⟩, ⟨"X", SignalType.SELL, 1, 40⟩]

/-- A simulator carrying the `c1_hist` trade log. -/
def c1_sim : TradingSimulator := ⟨0, [], c1_hist⟩

/-- C1 counterexample: on two buys (at 10 and 20) followed by two sells (at
30 and 40), the code reports `[20, 30]` — both sells paired with the first
buy — while the claimed one-to-one FIFO pairing would give `[20, 20]`. -/
theorem get_trade_pnls_not_one_to_one :
    get_trade_pnls c1_sim = [20, 30] ∧
    fifo_one_to_one_pnls c1_hist = [20, 20] ∧
    get_trade_pnls c1_sim ≠ fifo_one_to_one_pnls c1_hist := by
  have h1 : get_trade_pnls c1_sim = [20, 30] := by
    simp [get_trade_pnls, symbolOrder, symbolPnls, c1_sim, c1_hist,
      List.foldl, List.filter, List.filterMap]
    norm_num
  have h2 : fifo_one_to_one_pnls c1_hist = [20, 20] := by
    simp [fifo_one_to_one_pnls, symbolOrder, c1_hist, List.foldl, List.filter]
    norm_num
  refine ⟨h1, h2, ?_⟩
  rw [h1, h2]
  norm_num
